import Mathlib

/-!
Verification of the LF record DAG ingestion and weight consensus engine
against the repository sources: the Go package files misc.go and
remotenode.go together with the embedded C database header (struct ZTLF_DB)
and the HTTP API surface file. Components whose implementation file is not
part of the provided sources (the C database implementation behind
ZTLF_DB_putRecord and the weight propagation worker) are modelled from the
specification text; each such definition carries a doc comment saying so.
-/

namespace LF

/- ===================== Definitions ===================== -/

/-- Embedding of integerSqrtRounded from misc.go. The Go code computes
uint32(math.Round(math.Sqrt(float64(op)))). The source includes, as the
documented consistency reference, an integer algorithm that computes the
floor square root res of op and then increments res when the remainder
op - res*res exceeds res. For every op below 2 to the 32 the two agree:
float64 represents op exactly, the correctly rounded float square root is
within 2 to the -37 of the real root, and the real root is at distance at
least 2 to the -19 from every half integer boundary, so rounding to the
nearest integer gives the same answer in both versions. We embed the
integer form: with r the floor square root, the remainder op - r*r exceeds
r exactly when r*r + r is below op. -/
def integerSqrtRounded (op : Nat) : Nat :=
  let r := Nat.sqrt op
  if r * r + r < op then r + 1 else r

/-- Size of the graph node lock array in the ZTLF_DB header, db.h line 147:
prime to randomize lock distribution. -/
def ZTLF_DB_GRAPH_NODE_LOCK_ARRAY_SIZE : Nat := 197

/-- Model of a pthread_mutex_t slot; only its identity matters here. -/
structure PthreadMutex where
  lockId : Nat
deriving DecidableEq

/-- Model of a pthread_rwlock_t slot; only its identity matters here. -/
structure PthreadRwlock where
  lockId : Nat
deriving DecidableEq

/-- Model of a prepared sqlite3_stmt slot; only its identity matters here. -/
structure SqliteStmt where
  stmtId : Nat
deriving DecidableEq

/-- Embedding of struct ZTLF_DB from the db.h header embedded in misc.go:
the 22 prepared statement slots, the store wide mutex dbLock, the fixed
array of graph node shard mutexes, and the rwlock gfLock guarding growth of
the memory mapped graph weight file (gfm, gfcap). -/
structure ZTLF_DB where
  path : String
  sAddRecord : SqliteStmt
  sGetAllRecords : SqliteStmt
  sGetMaxRecordGoff : SqliteStmt
  sGetRecordHistoryById : SqliteStmt
  sGetRecordGoffByHash : SqliteStmt
  sGetRecordScoreByGoff : SqliteStmt
  sGetDanglingLinks : SqliteStmt
  sDeleteDanglingLinks : SqliteStmt
  sDeleteWantedHash : SqliteStmt
  sAddDanglingLink : SqliteStmt
  sAddWantedHash : SqliteStmt
  sAddHole : SqliteStmt
  sFlagRecordWeightApplicationPending : SqliteStmt
  sGetPeerFirstConnectTime : SqliteStmt
  sAddUpdatePeer : SqliteStmt
  sAddPotentialPeer : SqliteStmt
  sGetRecordsForWeightApplication : SqliteStmt
  sGetHoles : SqliteStmt
  sDeleteHole : SqliteStmt
  sUpdatePendingHoleCount : SqliteStmt
  sDeleteCompletedPending : SqliteStmt
  sGetPendingCount : SqliteStmt
  dbLock : PthreadMutex
  graphNodeLocks : Fin ZTLF_DB_GRAPH_NODE_LOCK_ARRAY_SIZE → PthreadMutex
  gfcap : Nat
  gfLock : PthreadRwlock
  running : Bool

/-- Names of the prepared statement fields of struct ZTLF_DB, in header
declaration order (db.h lines 154 to 175). -/
def ZTLF_DB_preparedStatementFields : List String :=
  ["sAddRecord", "sGetAllRecords", "sGetMaxRecordGoff", "sGetRecordHistoryById",
   "sGetRecordGoffByHash", "sGetRecordScoreByGoff", "sGetDanglingLinks",
   "sDeleteDanglingLinks", "sDeleteWantedHash", "sAddDanglingLink",
   "sAddWantedHash", "sAddHole", "sFlagRecordWeightApplicationPending",
   "sGetPeerFirstConnectTime", "sAddUpdatePeer", "sAddPotentialPeer",
   "sGetRecordsForWeightApplication", "sGetHoles", "sDeleteHole",
   "sUpdatePendingHoleCount", "sDeleteCompletedPending", "sGetPendingCount"]

/-- Names of the plain mutex fields of struct ZTLF_DB other than the shard
lock array: exactly the single store wide dbLock. -/
def ZTLF_DB_storeWideMutexFields : List String := ["dbLock"]

/-- Names of the read write lock fields of struct ZTLF_DB: exactly the
single gfLock guarding growth of the memory mapped weight file. -/
def ZTLF_DB_rwLockFields : List String := ["gfLock"]

/-- Shard lock index for a graph node: per the db.h comment, graph nodes are
locked by locking the node lock at goff mod the lock array size. -/
def graphNodeLockIndex (goff : Nat) : Fin ZTLF_DB_GRAPH_NODE_LOCK_ARRAY_SIZE :=
  ⟨goff % ZTLF_DB_GRAPH_NODE_LOCK_ARRAY_SIZE, Nat.mod_lt goff (by decide)⟩

/-- Shard lock for the graph node at a given goff. -/
def ZTLF_DB.graphNodeLockFor (db : ZTLF_DB) (goff : Nat) : PthreadMutex :=
  db.graphNodeLocks (graphNodeLockIndex goff)

/-- Modelled from the spec: the Record type itself (record.go) is not in the
source tree. Section 3 gives the record attributes: a value, zero or more
link hashes, a timestamp, an owner, selectors and a work value, with the 32
byte content hash a pure function of the other fields. The content hash is
therefore passed as an explicit function parameter hashFn where needed, so
every theorem holds for an arbitrary content addressing function. -/
structure Record where
  recordType : Nat
  value : List Nat
  links : List Nat
  timestamp : Nat
  owner : Nat
  selectors : List Nat
  workValue : Nat
deriving DecidableEq

/-- Big endian encoding of a natural number into a fixed number of bytes:
the first n bytes encode w divided by 256 and the last byte is w mod 256.
This is the interpretation the API surface gives the Weight field. -/
def beBytes : Nat → Nat → List (Fin 256)
  | 0, _ => []
  | n + 1, w => beBytes n (w / 256) ++ [⟨w % 256, Nat.mod_lt w (by decide)⟩]

/-- Big endian decoding of a byte string into a natural number. -/
def beDecode (l : List (Fin 256)) : Nat :=
  l.foldl (fun a b => a * 256 + b.val) 0

/-- Embedding of APIRecordDetail from the API surface file lines 64 to 69:
the Weight field is exactly 16 bytes carrying the weight of the record as a
128 bit big endian number. -/
structure APIRecordDetail where
  Record : Record
  Key : List (Fin 256)
  Value : List (Fin 256)
  Weight : { l : List (Fin 256) // l.length = 16 }

/-- Error values surfaced by the remote node client. -/
inductive LFError where
  | invalidParameter
  | apiError (code : Nat)
deriving DecidableEq

/-- Action taken by RemoteNode.GetRecord before any network request is
issued. -/
inductive GetRecordAction where
  | fail (e : LFError)
  | remoteLookup (rn : String) (hash : List (Fin 256))
deriving DecidableEq

/-- Embedding of RemoteNode.GetRecord from remotenode.go lines 149 to 158:
the guard returns ErrInvalidParameter when the length of hash equals 32,
and for every other length proceeds to the remote lookup. -/
def RemoteNode.GetRecord (rn : String) (hash : List (Fin 256)) : GetRecordAction :=
  if hash.length = 32 then .fail .invalidParameter else .remoteLookup rn hash

/-- A graph node / weight slot: one per admitted record, holding the record
hash and the goff assigned at admission time. -/
structure GraphNode where
  hash : Nat
  goff : Nat
deriving DecidableEq

/-- State of the durable metadata store as far as record admission is
concerned: the admitted graph nodes and the next goff to assign. -/
structure DBState where
  nodes : List GraphNode
  nextGoff : Nat
deriving DecidableEq

/-- Well formedness of a store state: every admitted hash occupies exactly
one graph node, so the hash column is duplicate free. -/
def DBState.wf (st : DBState) : Prop :=
  (st.nodes.map GraphNode.hash).Nodup

instance (st : DBState) : Decidable st.wf := by
  unfold DBState.wf
  infer_instance

/-- Modelled from the spec: the implementation of ZTLF_DB_putRecord (the C
database file behind the db.h header) is not in the source tree; only its
declaration is. Section 4.1 gives the contract: put assigns a goff at
admission, persists the node, and duplicate hash insertion is a no-op
success. Errors model storage failures, none of which arise here. -/
def putRecord (st : DBState) (h : Nat) : Except String DBState :=
  if st.nodes.any (fun n => n.hash = h) then Except.ok st
  else Except.ok { nodes := st.nodes ++ [⟨h, st.nextGoff⟩], nextGoff := st.nextGoff + 1 }

/-- Genesis record type tag, RecordTypeGenesis in the Go sources. -/
def RecordTypeGenesis : Nat := 1

/-- Embedding of CreateGenesisRecords from remotenode.go lines 407 to 447.
The very first record carries the JSON encoded genesis parameters gpjson
with no links and timestamp now; each loop iteration i from 1 below
minLinks appends an empty record whose links are the hashes of all records
created so far and whose timestamp is now plus i. The record constructor
NewRecord and the content hash (record.go) are not in the source tree, so
the hash is an arbitrary function hashFn of the record content, per the
content addressing clause of section 3. -/
def genesisStep (hashFn : Record → Nat) (owner now : Nat)
    (acc : List Record × List Nat) (i : Nat) : List Record × List Nat :=
  let r : Record := ⟨RecordTypeGenesis, [], acc.2, now + i, owner, [], 0⟩
  (acc.1 ++ [r], acc.2 ++ [hashFn r])

/-- The list of genesis records created for a new data store; see
genesisStep for the correspondence with the Go loop. -/
def CreateGenesisRecords (hashFn : Record → Nat) (minLinks : Nat)
    (gpjson : List Nat) (now owner : Nat) : List Record :=
  let r0 : Record := ⟨RecordTypeGenesis, gpjson, [], now, owner, [], 0⟩
  ((List.range' 1 (minLinks - 1)).foldl (genesisStep hashFn owner now)
    ([r0], [hashFn r0])).1

/-- Modelled from the spec: a record as seen by the weight engine (the C
database implementation is not in the source tree). Section 3: a 32 byte
content hash (identity; hashes of equal length compare lexicographically,
which coincides with big endian numeric order, so the hash is modelled as a
natural number), a selector grouping revisions of one logical key, declared
link hashes, and a work value. -/
structure StoreRecord where
  hash : Nat
  selector : Nat
  links : List Nat
  work : Nat
deriving DecidableEq

/-- Add amt to the weight slot of hash t. -/
def bumpWeight (st : Nat → Nat) (t : Nat) (amt : Nat) : Nat → Nat :=
  fun h => if h = t then st h + amt else st h

/-- Modelled from the spec: weight application for one record, section 4.4.
The intrinsic contribution c of the work value is added to the weight of
each record the new record links to, and per the section 3 invariant the
own slot of the record also receives its own intrinsic contribution. The
contribution transform c is an arbitrary function parameter. -/
def applyRecord (c : Nat → Nat) (st : Nat → Nat) (r : StoreRecord) : Nat → Nat :=
  r.links.foldl (fun s t => bumpWeight s t (c r.work)) (bumpWeight st r.hash (c r.work))

/-- Final weight state after delivering the given records in sequence and
fully propagating weights, starting from the all zero state. -/
def weightAfter (c : Nat → Nat) (order : List StoreRecord) : Nat → Nat :=
  order.foldl (applyRecord c) (fun _ => 0)

/-- Ranking key of a record revision: smaller keys are more authoritative.
The first component is the negated cumulative weight, so strictly greater
weight wins, and the second is the hash, so on an exact weight tie the
lexicographically smaller hash wins. -/
def revKey (w h : Nat) : ℤ ×ₗ ℕ := toLex (-(w : ℤ), h)

/-- Minimum of a list of ranking keys, none for the empty candidate set. -/
def minKey (l : List (ℤ ×ₗ ℕ)) : Option (ℤ ×ₗ ℕ) :=
  l.foldl (fun m k => match m with | none => some k | some b => some (min b k)) none

/-- Modelled from the spec: the authoritative revision choice for a
selector, section 4.4 tie break policy, is the candidate with the minimal
ranking key under the final cumulative weights. -/
def authoritativeKey (c : Nat → Nat) (order : List StoreRecord) (sel : Nat) :
    Option (ℤ ×ₗ ℕ) :=
  minKey ((order.filter (fun r => r.selector = sel)).map
    (fun r => revKey (weightAfter c order r.hash) r.hash))

/- The Go standard library functions strings.ToLower (Unicode lowercasing)
and strings.EqualFold (Unicode simple case folding) used by
GenesisParameters.Update are not part of this repository, so the embedding
below is parameterized over them: lower stands for strings.ToLower and
fold for strings.EqualFold, and the theorems hold for arbitrary such
functions, in particular for the true Unicode ones. The two definitions
next are ASCII instances used only to evaluate witnesses at concrete ASCII
inputs; they make no claim about non ASCII characters. -/

/-- ASCII instance of the lowercasing parameter, used only in witnesses at
concrete ASCII inputs. -/
def asciiLower (s : String) : String := String.mk (s.data.map Char.toLower)

/-- ASCII instance of the folding parameter, lowercase equality, which
agrees with strings.EqualFold on ASCII input. Used only in witnesses. -/
def asciiEqualFold (a b : String) : Bool := asciiLower a = asciiLower b

/-- Embedding of GenesisParameters from the genesis source file embedded in
remotenode.go: the ten public parameter fields plus the private cached
certificate list and the private initialization flag. Parsed certificates
are modelled by the byte blob they came from; byte blobs and the 32 byte
link key are lists of naturals. -/
structure GenesisParameters where
  Name : String
  Contact : String
  Comment : String
  AuthCertificates : List Nat
  AuthRequired : Bool
  LinkKey : List Nat
  RecordMinLinks : Nat
  RecordMaxValueSize : Nat
  RecordMaxForwardTimeDrift : Nat
  AmendableFields : List String
  certs : Option (List Nat)
  initialized : Bool
deriving DecidableEq

/-- The ten amendable parameter fields named by the switch cases of
GenesisParameters.Update. -/
inductive GPField where
  | name | contact | comment | authcertificates | authrequired | linkkey
  | recordminlinks | recordmaxvaluesize | recordmaxforwardtimedrift
  | amendablefields
deriving DecidableEq

/-- Lowercase name of each parameter field, as matched by the switch. -/
def fieldName : GPField → String
  | .name => "name"
  | .contact => "contact"
  | .comment => "comment"
  | .authcertificates => "authcertificates"
  | .authrequired => "authrequired"
  | .linkkey => "linkkey"
  | .recordminlinks => "recordminlinks"
  | .recordmaxvaluesize => "recordmaxvaluesize"
  | .recordmaxforwardtimedrift => "recordmaxforwardtimedrift"
  | .amendablefields => "amendablefields"

/-- The switch of GenesisParameters.Update on the lowercased key: the
parameter field a key addresses, none for an unknown key (the switch
default changes nothing). lower is the strings.ToLower parameter. -/
def fieldOfKey (lower : String → String) (k : String) : Option GPField :=
  if lower k = "name" then some .name
  else if lower k = "contact" then some .contact
  else if lower k = "comment" then some .comment
  else if lower k = "authcertificates" then some .authcertificates
  else if lower k = "authrequired" then some .authrequired
  else if lower k = "linkkey" then some .linkkey
  else if lower k = "recordminlinks" then some .recordminlinks
  else if lower k = "recordmaxvaluesize" then some .recordmaxvaluesize
  else if lower k = "recordmaxforwardtimedrift" then some .recordmaxforwardtimedrift
  else if lower k = "amendablefields" then some .amendablefields
  else none

/-- The assignment performed by each switch case: copy the addressed field
from the freshly parsed value ngp into gp; amending AuthCertificates also
forgets the cached parsed certificates. -/
def setField (gp ngp : GenesisParameters) : GPField → GenesisParameters
  | .name => { gp with Name := ngp.Name }
  | .contact => { gp with Contact := ngp.Contact }
  | .comment => { gp with Comment := ngp.Comment }
  | .authcertificates =>
    { gp with AuthCertificates := ngp.AuthCertificates, certs := none }
  | .authrequired => { gp with AuthRequired := ngp.AuthRequired }
  | .linkkey => { gp with LinkKey := ngp.LinkKey }
  | .recordminlinks => { gp with RecordMinLinks := ngp.RecordMinLinks }
  | .recordmaxvaluesize => { gp with RecordMaxValueSize := ngp.RecordMaxValueSize }
  | .recordmaxforwardtimedrift =>
    { gp with RecordMaxForwardTimeDrift := ngp.RecordMaxForwardTimeDrift }
  | .amendablefields => { gp with AmendableFields := ngp.AmendableFields }

/-- One iteration of the update loop of GenesisParameters.Update: key k of
the incoming JSON object is skipped when the parameters are already
initialized and no name in the amendable list afields (captured before the
loop) matches k under fold, the strings.EqualFold parameter; otherwise the
switch on lower k copies the addressed field from the freshly parsed value
ngp. -/
def updateStep (lower : String → String) (fold : String → String → Bool)
    (init : Bool) (afields : List String) (ngp : GenesisParameters)
    (gp : GenesisParameters) (k : String) : GenesisParameters :=
  if init && !(afields.any (fun af => fold af k)) then gp
  else
    match fieldOfKey lower k with
    | none => gp
    | some f => setField gp ngp f

/-- Trigger condition for a parameter field under the update loop, exactly
as the code tests it: some key k of the incoming object addresses the
field named fname through the switch on lower k, and passes the amendable
check, which tests fold af k for the entries af of the amendable list
captured before the loop. -/
abbrev keyTriggers (lower : String → String) (fold : String → String → Bool)
    (afields : List String) (keys : List String) (fname : String) : Prop :=
  ∃ k ∈ keys, lower k = fname ∧ afields.any (fun af => fold af k) = true

/-- Embedding of GenesisParameters.Update from the genesis source file:
empty input returns success and changes nothing (the code returns before
touching the flag); otherwise the input, already parsed into its key set
and a fresh GenesisParameters value, drives one updateStep per key against
the amendable list captured before the loop, and the initialization flag is
set at the end. JSON parse failures are outside this model: a present input
stands for a successfully parsed body. -/
def GenesisParameters.Update (lower : String → String)
    (fold : String → String → Bool) (gp : GenesisParameters)
    (input : Option (List String × GenesisParameters)) : GenesisParameters :=
  match input with
  | none => gp
  | some (keys, ngp) =>
    { keys.foldl (updateStep lower fold gp.initialized gp.AmendableFields ngp) gp with
        initialized := true }

/- ===================== Theorems ===================== -/

lemma integerSqrtRounded_eq (op : Nat) :
    integerSqrtRounded op =
      if Nat.sqrt op * Nat.sqrt op + Nat.sqrt op < op then Nat.sqrt op + 1 else Nat.sqrt op := rfl

lemma integerSqrtRounded_mono {op1 op2 : Nat} (h : op1 ≤ op2) :
    integerSqrtRounded op1 ≤ integerSqrtRounded op2 := by
  rw [integerSqrtRounded_eq, integerSqrtRounded_eq]
  have hs : Nat.sqrt op1 ≤ Nat.sqrt op2 := Nat.sqrt_le_sqrt h
  rcases Nat.lt_or_ge (Nat.sqrt op1) (Nat.sqrt op2) with hlt | hge
  · split <;> split <;> omega
  · have heq : Nat.sqrt op1 = Nat.sqrt op2 := Nat.le_antisymm hs hge
    rw [heq]
    split <;> split <;> omega

lemma integerSqrtRounded_le_half_dist (op : Nat) :
    |(integerSqrtRounded op : ℝ) - Real.sqrt op| ≤ 1 / 2 := by
  obtain ⟨r, hr⟩ : ∃ r, Nat.sqrt op = r := ⟨_, rfl⟩
  have hlow : (r : ℝ) ^ 2 ≤ (op : ℝ) := by
    have h := Nat.sqrt_le' op
    rw [hr] at h
    exact_mod_cast h
  have hhigh : (op : ℝ) < ((r : ℝ) + 1) ^ 2 := by
    have h := Nat.lt_succ_sqrt' op
    rw [hr] at h
    have h2 : (op : ℝ) < ((r + 1 : Nat) : ℝ) ^ 2 := by exact_mod_cast h
    simpa using h2
  have hs0 : (0 : ℝ) ≤ Real.sqrt op := Real.sqrt_nonneg _
  rw [abs_le, integerSqrtRounded_eq, hr]
  by_cases hc : r * r + r < op
  · -- result is r + 1; the remainder exceeds r
    have hge : (r : ℝ) * r + r + 1 ≤ (op : ℝ) := by
      have h : r * r + r + 1 ≤ op := hc
      exact_mod_cast h
    have hup : Real.sqrt op < (r : ℝ) + 1 + 1 / 2 :=
      (Real.sqrt_lt' (by positivity)).mpr (by nlinarith)
    have hdown : (r : ℝ) + 1 - 1 / 2 ≤ Real.sqrt op := by
      have h : ((r : ℝ) + 1 / 2) < Real.sqrt op :=
        (Real.lt_sqrt (by positivity)).mpr (by nlinarith)
      linarith
    simp only [if_pos hc]
    push_cast
    constructor <;> linarith
  · -- result is r
    have hle : (op : ℝ) ≤ (r : ℝ) * r + r := by
      have h : op ≤ r * r + r := Nat.le_of_not_lt hc
      exact_mod_cast h
    simp only [if_neg hc]
    rcases Nat.eq_zero_or_pos r with h0 | hpos
    · subst h0
      have hop0 : op = 0 := by omega
      subst hop0
      simp [Real.sqrt_zero]
    · have hr1 : (1 : ℝ) ≤ (r : ℝ) := by exact_mod_cast hpos
      have hup : Real.sqrt op < (r : ℝ) + 1 / 2 :=
        (Real.sqrt_lt' (by positivity)).mpr (by nlinarith)
      have hdown : (r : ℝ) - 1 / 2 ≤ Real.sqrt op := by
        have hsq : ((r : ℝ) - 1 / 2) ^ 2 ≤ (op : ℝ) := by nlinarith
        calc (r : ℝ) - 1 / 2 = Real.sqrt (((r : ℝ) - 1 / 2) ^ 2) := by
              rw [Real.sqrt_sq (by linarith)]
          _ ≤ Real.sqrt op := Real.sqrt_le_sqrt hsq
      constructor <;> linarith

lemma integerSqrtRounded_nearest (op k : Nat) :
    |(integerSqrtRounded op : ℝ) - Real.sqrt op| ≤ |(k : ℝ) - Real.sqrt op| := by
  set res := integerSqrtRounded op with hres
  have hhalf : |(res : ℝ) - Real.sqrt op| ≤ 1 / 2 := integerSqrtRounded_le_half_dist op
  by_cases hk : k = res
  · subst hk; exact le_refl _
  · have hone : (1 : ℝ) ≤ |(k : ℝ) - (res : ℝ)| := by
      have hne : (k : ℤ) - (res : ℤ) ≠ 0 := by omega
      have h1 : (1 : ℤ) ≤ |(k : ℤ) - (res : ℤ)| := Int.one_le_abs hne
      exact_mod_cast h1
    have htri : |(k : ℝ) - (res : ℝ)| ≤ |(k : ℝ) - Real.sqrt op| + |(res : ℝ) - Real.sqrt op| := by
      have := abs_sub_le ((k : ℝ)) (Real.sqrt op) ((res : ℝ))
      calc |(k : ℝ) - (res : ℝ)| ≤ |(k : ℝ) - Real.sqrt op| + |Real.sqrt op - (res : ℝ)| := this
        _ = |(k : ℝ) - Real.sqrt op| + |(res : ℝ) - Real.sqrt op| := by rw [abs_sub_comm (Real.sqrt op)]
    linarith

/-- C5: the work value transform integerSqrtRounded is monotone
nondecreasing on 32 bit unsigned inputs, and for every 32 bit unsigned op
it returns the integer nearest to the real square root of op. -/
theorem integerSqrtRounded_spec (op1 op2 op : Nat)
    (h1 : op1 < 2 ^ 32) (h2 : op2 < 2 ^ 32) (h12 : op1 ≤ op2) (hop : op < 2 ^ 32) :
    integerSqrtRounded op1 ≤ integerSqrtRounded op2 ∧
      ∀ k : Nat, |(integerSqrtRounded op : ℝ) - Real.sqrt op| ≤ |(k : ℝ) - Real.sqrt op| :=
  ⟨integerSqrtRounded_mono h12, fun k => integerSqrtRounded_nearest op k⟩

/-- Witness for C5 at concrete inputs. -/
theorem integerSqrtRounded_spec_witness :
    integerSqrtRounded 10 ≤ integerSqrtRounded 17 :=
  (integerSqrtRounded_spec 10 17 2 (by decide) (by decide) (by decide) (by decide)).1

/-- C4: the lock manager is a fixed size array of exactly 197 shard
mutexes, 197 is prime, the shard lock for a graph node at offset goff is
selected by goff mod 197, and the store has exactly one store wide mutex
field and exactly one read write lock field guarding growth of the memory
mapped weight file. -/
theorem lockManager_spec :
    ZTLF_DB_GRAPH_NODE_LOCK_ARRAY_SIZE = 197 ∧
      Nat.Prime ZTLF_DB_GRAPH_NODE_LOCK_ARRAY_SIZE ∧
      (∀ goff : Nat, (graphNodeLockIndex goff : Nat) = goff % 197) ∧
      (∀ (db : ZTLF_DB) (goff : Nat),
        db.graphNodeLockFor goff = db.graphNodeLocks (graphNodeLockIndex goff)) ∧
      ZTLF_DB_storeWideMutexFields.length = 1 ∧ ZTLF_DB_rwLockFields.length = 1 := by
  refine ⟨rfl, by norm_num [ZTLF_DB_GRAPH_NODE_LOCK_ARRAY_SIZE], fun goff => rfl,
    fun db goff => rfl, rfl, rfl⟩

/-- C7: the durable metadata store handle prepares exactly 22 query shapes,
covering record insertion and lookup, max goff, history by id, score by
goff, dangling links, wanted hashes, holes, pending weight bookkeeping, and
peer bookkeeping. -/
theorem preparedStatements_spec :
    ZTLF_DB_preparedStatementFields.length = 22 ∧
      "sAddRecord" ∈ ZTLF_DB_preparedStatementFields ∧
      "sGetRecordGoffByHash" ∈ ZTLF_DB_preparedStatementFields ∧
      "sGetMaxRecordGoff" ∈ ZTLF_DB_preparedStatementFields ∧
      "sGetRecordHistoryById" ∈ ZTLF_DB_preparedStatementFields ∧
      "sGetRecordScoreByGoff" ∈ ZTLF_DB_preparedStatementFields ∧
      "sGetDanglingLinks" ∈ ZTLF_DB_preparedStatementFields ∧
      "sAddDanglingLink" ∈ ZTLF_DB_preparedStatementFields ∧
      "sDeleteDanglingLinks" ∈ ZTLF_DB_preparedStatementFields ∧
      "sAddWantedHash" ∈ ZTLF_DB_preparedStatementFields ∧
      "sDeleteWantedHash" ∈ ZTLF_DB_preparedStatementFields ∧
      "sAddHole" ∈ ZTLF_DB_preparedStatementFields ∧
      "sGetHoles" ∈ ZTLF_DB_preparedStatementFields ∧
      "sDeleteHole" ∈ ZTLF_DB_preparedStatementFields ∧
      "sFlagRecordWeightApplicationPending" ∈ ZTLF_DB_preparedStatementFields ∧
      "sGetRecordsForWeightApplication" ∈ ZTLF_DB_preparedStatementFields ∧
      "sUpdatePendingHoleCount" ∈ ZTLF_DB_preparedStatementFields ∧
      "sDeleteCompletedPending" ∈ ZTLF_DB_preparedStatementFields ∧
      "sGetPendingCount" ∈ ZTLF_DB_preparedStatementFields ∧
      "sGetPeerFirstConnectTime" ∈ ZTLF_DB_preparedStatementFields ∧
      "sAddUpdatePeer" ∈ ZTLF_DB_preparedStatementFields ∧
      "sAddPotentialPeer" ∈ ZTLF_DB_preparedStatementFields := by
  refine ⟨rfl, ?_, ?_, ?_, ?_, ?_, ?_, ?_, ?_, ?_, ?_, ?_, ?_, ?_, ?_, ?_, ?_, ?_, ?_, ?_, ?_, ?_⟩ <;> simp [ZTLF_DB_preparedStatementFields]

lemma mod_mul_decomp (a b c : Nat) (hb : 0 < b) (hc : 0 < c) :
    a % (b * c) = a / c % b * c + a % c := by
  have h1 : a = b * c * (a / c / b) + (a / c % b * c + a % c) := by
    have e2 := Nat.div_add_mod (a / c) b
    calc a = c * (a / c) + a % c := (Nat.div_add_mod a c).symm
      _ = c * (b * (a / c / b) + a / c % b) + a % c := by rw [e2]
      _ = b * c * (a / c / b) + (a / c % b * c + a % c) := by ring
  have h2 : a / c % b * c + a % c < b * c := by
    have hmb : a / c % b + 1 ≤ b := Nat.mod_lt _ hb
    have hmc : a % c < c := Nat.mod_lt _ hc
    calc a / c % b * c + a % c < a / c % b * c + c := by omega
      _ = (a / c % b + 1) * c := by ring
      _ ≤ b * c := Nat.mul_le_mul_right c hmb
  conv_lhs => rw [h1]
  rw [Nat.mul_add_mod]
  exact Nat.mod_eq_of_lt h2

lemma beBytes_length (n w : Nat) : (beBytes n w).length = n := by
  induction n generalizing w with
  | zero => rfl
  | succ n ih => simp [beBytes, ih]

lemma beDecode_beBytes (n w : Nat) : beDecode (beBytes n w) = w % 256 ^ n := by
  induction n generalizing w with
  | zero => simp [beBytes, beDecode, Nat.mod_one]
  | succ n ih =>
    have hstep : beDecode (beBytes (n + 1) w) = beDecode (beBytes n (w / 256)) * 256 + w % 256 := by
      simp [beBytes, beDecode, List.foldl_append]
    rw [hstep, ih, pow_succ, mod_mul_decomp w (256 ^ n) 256 (by positivity) (by norm_num)]

lemma beDecode_foldl_lt (l : List (Fin 256)) :
    ∀ a : Nat, l.foldl (fun a b => a * 256 + b.val) a < (a + 1) * 256 ^ l.length := by
  induction l with
  | nil => intro a; simp
  | cons b t ih =>
    intro a
    have h := ih (a * 256 + b.val)
    have hb : b.val < 256 := b.isLt
    have hmul : a * 256 + b.val + 1 ≤ (a + 1) * 256 := by
      have : (a + 1) * 256 = a * 256 + 256 := by ring
      omega
    calc List.foldl (fun a b => a * 256 + b.val) a (b :: t)
        = List.foldl (fun a b => a * 256 + b.val) (a * 256 + b.val) t := rfl
      _ < (a * 256 + b.val + 1) * 256 ^ t.length := h
      _ ≤ ((a + 1) * 256) * 256 ^ t.length := Nat.mul_le_mul_right _ hmul
      _ = (a + 1) * 256 ^ (b :: t).length := by
          simp [List.length_cons, pow_succ]
          ring

lemma beDecode_lt (l : List (Fin 256)) : beDecode l < 256 ^ l.length := by
  have h := beDecode_foldl_lt l 0
  simpa [beDecode] using h

/-- C6: every value below 2 to the 128 survives the 16 byte big endian
weight encoding of the query interface without truncation, the encoding is
exactly 16 bytes, and every Weight field of an APIRecordDetail decodes to a
value representable in 128 bits. -/
theorem weightField_spec :
    (∀ w : Nat, w < 2 ^ 128 → beDecode (beBytes 16 w) = w ∧ (beBytes 16 w).length = 16) ∧
      ∀ d : APIRecordDetail, beDecode d.Weight.val < 2 ^ 128 := by
  have h256 : (256 : Nat) ^ 16 = 2 ^ 128 := by norm_num
  constructor
  · intro w hw
    refine ⟨?_, beBytes_length 16 w⟩
    rw [beDecode_beBytes, h256]
    exact Nat.mod_eq_of_lt hw
  · intro d
    have h := beDecode_lt d.Weight.val
    rw [d.Weight.property, h256] at h
    exact h

/-- Witness for C6 at the concrete weight 300. -/
theorem weightField_spec_witness : beDecode (beBytes 16 300) = 300 :=
  (weightField_spec.1 300 (by decide)).1

/-- C8: RemoteNode.GetRecord returns ErrInvalidParameter without issuing
any network request exactly when the length of hash equals 32 bytes, and
for every other length it proceeds to the remote lookup. -/
theorem getRecord_guard_spec (rn : String) (hash : List (Fin 256)) :
    (RemoteNode.GetRecord rn hash = .fail .invalidParameter ↔ hash.length = 32) ∧
      (hash.length ≠ 32 → RemoteNode.GetRecord rn hash = .remoteLookup rn hash) := by
  refine ⟨⟨fun h => ?_, fun h => ?_⟩, fun h => ?_⟩
  · by_contra hne
    simp [RemoteNode.GetRecord, hne] at h
  · simp [RemoteNode.GetRecord, h]
  · simp [RemoteNode.GetRecord, h]

/-- Witness for C8: a 32 byte hash is rejected as an invalid parameter. -/
theorem getRecord_guard_spec_witness :
    RemoteNode.GetRecord "node" (List.replicate 32 (0 : Fin 256)) =
      GetRecordAction.fail LFError.invalidParameter :=
  (getRecord_guard_spec "node" (List.replicate 32 (0 : Fin 256))).1.mpr (by simp)

lemma filter_hash_length_eq_count (l : List GraphNode) (h : Nat) :
    (l.filter (fun n => n.hash = h)).length = (l.map GraphNode.hash).count h := by
  induction l with
  | nil => rfl
  | cons n t ih =>
    by_cases hn : n.hash = h <;>
      simp [List.filter_cons, List.count_cons, hn, ih]

/-- C1: put is idempotent with respect to duplicate records: from a well
formed store, a second put with an identical record (same hash) succeeds as
a no-op, returns no error, and afterwards exactly one graph node / weight
slot exists for that hash. -/
theorem putRecord_idempotent (st st1 : DBState) (h : Nat)
    (hwf : st.wf) (h1 : putRecord st h = Except.ok st1) :
    putRecord st1 h = Except.ok st1 ∧
      (st1.nodes.filter (fun n => n.hash = h)).length = 1 := by
  unfold putRecord at h1 ⊢
  by_cases hmem : st.nodes.any (fun n => n.hash = h)
  · rw [if_pos hmem] at h1
    have hst : st = st1 := by injection h1
    subst hst
    rw [if_pos hmem]
    refine ⟨rfl, ?_⟩
    rw [filter_hash_length_eq_count]
    have hhash : h ∈ st.nodes.map GraphNode.hash := by
      simp only [List.any_eq_true, decide_eq_true_eq] at hmem
      obtain ⟨n, hn, he⟩ := hmem
      exact List.mem_map.mpr ⟨n, hn, he⟩
    have hle := List.nodup_iff_count_le_one.mp hwf h
    have hge := List.count_pos_iff.mpr hhash
    omega
  · rw [if_neg hmem] at h1
    have hst : st1 = ⟨st.nodes ++ [⟨h, st.nextGoff⟩], st.nextGoff + 1⟩ := by
      injection h1 with h1e
      exact h1e.symm
    subst hst
    have hany : (st.nodes ++ [(⟨h, st.nextGoff⟩ : GraphNode)]).any (fun n => n.hash = h) = true := by
      simp [List.any_append]
    rw [hany]
    refine ⟨by simp, ?_⟩
    have hnil : st.nodes.filter (fun n => n.hash = h) = [] := by
      simp only [List.any_eq_true, decide_eq_true_eq, not_exists] at hmem
      refine List.filter_eq_nil_iff.mpr ?_
      intro n hn
      simp only [decide_eq_true_eq]
      intro he
      exact hmem n ⟨hn, he⟩
    simp [List.filter_append, hnil]

/-- Witness for C1 at a concrete store and hash. -/
theorem putRecord_idempotent_witness :
    putRecord ⟨[⟨5, 0⟩], 1⟩ 5 = Except.ok (⟨[⟨5, 0⟩], 1⟩ : DBState) ∧
      ((⟨[⟨5, 0⟩], 1⟩ : DBState).nodes.filter (fun n => n.hash = 5)).length = 1 :=
  putRecord_idempotent ⟨[], 0⟩ ⟨[⟨5, 0⟩], 1⟩ 5 (by decide) rfl

lemma take_append_le {α : Type _} {l1 l2 : List α} {i : Nat} (h : i ≤ l1.length) :
    (l1 ++ l2).take i = l1.take i := by
  rw [List.take_append_eq_append_take, Nat.sub_eq_zero_of_le h, List.take_zero,
    List.append_nil]

lemma genesis_invariant (hashFn : Record → Nat) (owner now : Nat) (gpjson : List Nat)
    (k : Nat) :
    ((List.range' 1 k).foldl (genesisStep hashFn owner now)
        ([⟨RecordTypeGenesis, gpjson, [], now, owner, [], 0⟩],
         [hashFn ⟨RecordTypeGenesis, gpjson, [], now, owner, [], 0⟩])).1.length = k + 1 ∧
      ((List.range' 1 k).foldl (genesisStep hashFn owner now)
        ([⟨RecordTypeGenesis, gpjson, [], now, owner, [], 0⟩],
         [hashFn ⟨RecordTypeGenesis, gpjson, [], now, owner, [], 0⟩])).2 =
        ((List.range' 1 k).foldl (genesisStep hashFn owner now)
        ([⟨RecordTypeGenesis, gpjson, [], now, owner, [], 0⟩],
         [hashFn ⟨RecordTypeGenesis, gpjson, [], now, owner, [], 0⟩])).1.map hashFn ∧
      (∀ h0 : 0 < ((List.range' 1 k).foldl (genesisStep hashFn owner now)
        ([⟨RecordTypeGenesis, gpjson, [], now, owner, [], 0⟩],
         [hashFn ⟨RecordTypeGenesis, gpjson, [], now, owner, [], 0⟩])).1.length,
        ((List.range' 1 k).foldl (genesisStep hashFn owner now)
        ([⟨RecordTypeGenesis, gpjson, [], now, owner, [], 0⟩],
         [hashFn ⟨RecordTypeGenesis, gpjson, [], now, owner, [], 0⟩])).1.get ⟨0, h0⟩ =
          ⟨RecordTypeGenesis, gpjson, [], now, owner, [], 0⟩) ∧
      ∀ i, ∀ hlt : i < ((List.range' 1 k).foldl (genesisStep hashFn owner now)
        ([⟨RecordTypeGenesis, gpjson, [], now, owner, [], 0⟩],
         [hashFn ⟨RecordTypeGenesis, gpjson, [], now, owner, [], 0⟩])).1.length, 1 ≤ i →
        (((List.range' 1 k).foldl (genesisStep hashFn owner now)
        ([⟨RecordTypeGenesis, gpjson, [], now, owner, [], 0⟩],
         [hashFn ⟨RecordTypeGenesis, gpjson, [], now, owner, [], 0⟩])).1.get ⟨i, hlt⟩).links =
            (((List.range' 1 k).foldl (genesisStep hashFn owner now)
        ([⟨RecordTypeGenesis, gpjson, [], now, owner, [], 0⟩],
         [hashFn ⟨RecordTypeGenesis, gpjson, [], now, owner, [], 0⟩])).1.take i).map hashFn ∧
          (((List.range' 1 k).foldl (genesisStep hashFn owner now)
        ([⟨RecordTypeGenesis, gpjson, [], now, owner, [], 0⟩],
         [hashFn ⟨RecordTypeGenesis, gpjson, [], now, owner, [], 0⟩])).1.get ⟨i, hlt⟩).timestamp =
            now + i ∧
          (((List.range' 1 k).foldl (genesisStep hashFn owner now)
        ([⟨RecordTypeGenesis, gpjson, [], now, owner, [], 0⟩],
         [hashFn ⟨RecordTypeGenesis, gpjson, [], now, owner, [], 0⟩])).1.get ⟨i, hlt⟩).value = [] := by
  induction k with
  | zero =>
    refine ⟨rfl, rfl, fun h0 => rfl, ?_⟩
    intro i hlt h1
    simp only [List.range'_zero, List.foldl_nil, List.length_cons, List.length_nil] at hlt
    omega
  | succ k ih =>
    obtain ⟨ihlen, ihmap, ihzero, ihget⟩ := ih
    rw [List.range'_1_concat, List.foldl_append, List.foldl_cons, List.foldl_nil]
    set acc := (List.range' 1 k).foldl (genesisStep hashFn owner now)
      ([⟨RecordTypeGenesis, gpjson, [], now, owner, [], 0⟩],
       [hashFn ⟨RecordTypeGenesis, gpjson, [], now, owner, [], 0⟩]) with hacc
    set rNew : Record := ⟨RecordTypeGenesis, [], acc.2, now + (1 + k), owner, [], 0⟩ with hrNew
    have hstep : genesisStep hashFn owner now acc (1 + k) = (acc.1 ++ [rNew], acc.2 ++ [hashFn rNew]) := rfl
    rw [hstep]
    have hlen' : (acc.1 ++ [rNew]).length = k + 1 + 1 := by simp [ihlen]
    refine ⟨hlen', ?_, ?_, ?_⟩
    · simp [ihmap]
    · intro h0
      have h0' : 0 < acc.1.length := by omega
      rw [List.get_eq_getElem, List.getElem_append_left h0']
      exact ihzero h0'
    · intro i hlt h1
      rcases Nat.lt_or_ge i acc.1.length with hi | hi
      · have htake : (acc.1 ++ [rNew]).take i = acc.1.take i := take_append_le (Nat.le_of_lt hi)
        rw [List.get_eq_getElem, List.getElem_append_left hi, htake]
        have := ihget i hi h1
        rw [List.get_eq_getElem] at this
        exact this
      · have hieq : i = acc.1.length := by
          simp only [List.length_append, List.length_cons, List.length_nil] at hlt
          omega
        subst hieq
        rw [List.get_eq_getElem]
        have hgetNew : (acc.1 ++ [rNew])[acc.1.length] = rNew := by
          exact List.getElem_concat_length acc.1 rNew acc.1.length rfl (by simp)
        rw [hgetNew]
        have htake : (acc.1 ++ [rNew]).take acc.1.length = acc.1 := List.take_left _ _
        rw [htake]
        refine ⟨ihmap, ?_, rfl⟩
        simp only [hrNew, ihlen]
        omega

/-- C9: CreateGenesisRecords returns exactly max 1 minLinks records; the
first carries the JSON encoded genesis parameters with no links and
timestamp now; every subsequent record i links to the hashes of all i
previously created genesis records, is empty, and has timestamp now plus i;
and the full set suffices to satisfy minLinks links for later records. -/
theorem createGenesisRecords_spec (hashFn : Record → Nat) (minLinks : Nat)
    (gpjson : List Nat) (now owner : Nat) :
    (CreateGenesisRecords hashFn minLinks gpjson now owner).length = max 1 minLinks ∧
      minLinks ≤ (CreateGenesisRecords hashFn minLinks gpjson now owner).length ∧
      (∀ h0 : 0 < (CreateGenesisRecords hashFn minLinks gpjson now owner).length,
        ((CreateGenesisRecords hashFn minLinks gpjson now owner).get ⟨0, h0⟩).value = gpjson ∧
        ((CreateGenesisRecords hashFn minLinks gpjson now owner).get ⟨0, h0⟩).links = [] ∧
        ((CreateGenesisRecords hashFn minLinks gpjson now owner).get ⟨0, h0⟩).timestamp = now) ∧
      ∀ i, ∀ hlt : i < (CreateGenesisRecords hashFn minLinks gpjson now owner).length, 1 ≤ i →
        ((CreateGenesisRecords hashFn minLinks gpjson now owner).get ⟨i, hlt⟩).links =
            ((CreateGenesisRecords hashFn minLinks gpjson now owner).take i).map hashFn ∧
          ((CreateGenesisRecords hashFn minLinks gpjson now owner).get ⟨i, hlt⟩).timestamp = now + i ∧
          ((CreateGenesisRecords hashFn minLinks gpjson now owner).get ⟨i, hlt⟩).value = [] := by
  obtain ⟨hlen, _hmap, hzero, hget⟩ := genesis_invariant hashFn owner now gpjson (minLinks - 1)
  have hdef : CreateGenesisRecords hashFn minLinks gpjson now owner =
      ((List.range' 1 (minLinks - 1)).foldl (genesisStep hashFn owner now)
        ([⟨RecordTypeGenesis, gpjson, [], now, owner, [], 0⟩],
         [hashFn ⟨RecordTypeGenesis, gpjson, [], now, owner, [], 0⟩])).1 := rfl
  rw [hdef]
  refine ⟨by omega, by omega, ?_, ?_⟩
  · intro h0
    rw [hzero h0]
    exact ⟨rfl, rfl, rfl⟩
  · exact hget

/-- Witness for C9 with three genesis records at concrete inputs. -/
theorem createGenesisRecords_spec_witness :
    ((CreateGenesisRecords (fun r => r.timestamp) 3 [7] 100 9).get ⟨1, by decide⟩).timestamp =
      100 + 1 :=
  ((createGenesisRecords_spec (fun r => r.timestamp) 3 [7] 100 9).2.2.2 1 (by decide)
    (by decide)).2.1

lemma bumpWeight_eval (st : Nat → Nat) (t amt h : Nat) :
    bumpWeight st t amt h = st h + (if h = t then amt else 0) := by
  unfold bumpWeight
  split <;> simp

lemma foldl_bump_eval (ts : List Nat) (amt : Nat) :
    ∀ (st : Nat → Nat) (h : Nat),
      (ts.foldl (fun s t => bumpWeight s t amt) st) h = st h + amt * ts.count h := by
  induction ts with
  | nil => intro st h; simp
  | cons t ts ih =>
    intro st h
    rw [List.foldl_cons, ih, bumpWeight_eval, List.count_cons]
    by_cases he : h = t
    · subst he
      simp [Nat.mul_add]
      omega
    · have hne : ¬(t = h) := fun he2 => he he2.symm
      simp [he, hne]

lemma applyRecord_eval (c : Nat → Nat) (st : Nat → Nat) (r : StoreRecord) (h : Nat) :
    applyRecord c st r h =
      st h + ((if h = r.hash then c r.work else 0) + c r.work * r.links.count h) := by
  unfold applyRecord
  rw [foldl_bump_eval, bumpWeight_eval]
  omega

lemma weightAfter_foldl_eval (c : Nat → Nat) (order : List StoreRecord) :
    ∀ (st : Nat → Nat) (h : Nat),
      (order.foldl (applyRecord c) st) h =
        st h + (order.map (fun r =>
          (if h = r.hash then c r.work else 0) + c r.work * r.links.count h)).sum := by
  induction order with
  | nil => intro st h; simp
  | cons r t ih =>
    intro st h
    rw [List.foldl_cons, ih, applyRecord_eval]
    simp only [List.map_cons, List.sum_cons]
    omega

lemma weightAfter_eval (c : Nat → Nat) (order : List StoreRecord) (h : Nat) :
    weightAfter c order h =
      (order.map (fun r =>
        (if h = r.hash then c r.work else 0) + c r.work * r.links.count h)).sum := by
  unfold weightAfter
  rw [weightAfter_foldl_eval]
  simp

lemma minKey_perm {l1 l2 : List (ℤ ×ₗ ℕ)} (h : l1.Perm l2) : minKey l1 = minKey l2 := by
  unfold minKey
  refine h.foldl_eq' (fun x _ y _ z => ?_) none
  match z with
  | none => simp [min_comm]
  | some b => simp [min_right_comm]

/-- C2: order independence of eventual state: for every finite set of
records and every two delivery orders of that set, after full weight
propagation the final cumulative weight of every hash slot and the final
authoritative revision choice for every selector are identical. -/
theorem weightConsensus_order_independent (c : Nat → Nat)
    (o1 o2 : List StoreRecord) (hperm : o1.Perm o2) :
    (∀ h : Nat, weightAfter c o1 h = weightAfter c o2 h) ∧
      ∀ sel : Nat, authoritativeKey c o1 sel = authoritativeKey c o2 sel := by
  have hw : ∀ h, weightAfter c o1 h = weightAfter c o2 h := by
    intro h
    rw [weightAfter_eval, weightAfter_eval]
    exact (hperm.map _).sum_eq
  refine ⟨hw, ?_⟩
  intro sel
  unfold authoritativeKey
  have hwf : (fun r : StoreRecord => revKey (weightAfter c o1 r.hash) r.hash) =
      (fun r : StoreRecord => revKey (weightAfter c o2 r.hash) r.hash) := by
    funext r
    rw [hw]
  rw [hwf]
  exact minKey_perm ((hperm.filter _).map _)

/-- Witness for C2 on a two record set delivered in both orders. -/
theorem weightConsensus_order_independent_witness :
    weightAfter (fun w => w) [⟨1, 0, [], 3⟩, ⟨2, 0, [1], 5⟩] 1 =
      weightAfter (fun w => w) [⟨2, 0, [1], 5⟩, ⟨1, 0, [], 3⟩] 1 :=
  (weightConsensus_order_independent (fun w => w)
    [⟨1, 0, [], 3⟩, ⟨2, 0, [1], 5⟩] [⟨2, 0, [1], 5⟩, ⟨1, 0, [], 3⟩] (by decide)).1 1

lemma minKey_pair (k1 k2 : ℤ ×ₗ ℕ) : minKey [k1, k2] = some (min k1 k2) := rfl

lemma revKey_lt_of_weight_gt {w1 w2 h1 h2 : Nat} (h : w2 > w1) :
    revKey w2 h2 < revKey w1 h1 := by
  rw [revKey, revKey, Prod.Lex.lt_iff]
  left
  show -((w2 : ℤ)) < -((w1 : ℤ))
  omega

lemma revKey_lt_of_hash_lt {w1 w2 h1 h2 : Nat} (hw : w1 = w2) (hh : h1 < h2) :
    revKey w1 h1 < revKey w2 h2 := by
  rw [revKey, revKey, Prod.Lex.lt_iff]
  right
  refine ⟨?_, hh⟩
  show -((w1 : ℤ)) = -((w2 : ℤ))
  omega

/-- C3: authoritative revision tie break: for two records sharing a
selector, both fully weight applied, the one with strictly greater
cumulative weight is authoritative, and on an exact weight tie the record
with the lexicographically smaller hash is authoritative. -/
theorem authoritative_tiebreak (c : Nat → Nat) (A B : StoreRecord)
    (hsel : A.selector = B.selector) (hne : A.hash ≠ B.hash) :
    (weightAfter c [A, B] B.hash > weightAfter c [A, B] A.hash →
        authoritativeKey c [A, B] B.selector =
          some (revKey (weightAfter c [A, B] B.hash) B.hash)) ∧
      (weightAfter c [A, B] A.hash > weightAfter c [A, B] B.hash →
        authoritativeKey c [A, B] B.selector =
          some (revKey (weightAfter c [A, B] A.hash) A.hash)) ∧
      (weightAfter c [A, B] A.hash = weightAfter c [A, B] B.hash →
        authoritativeKey c [A, B] B.selector =
          some (revKey (weightAfter c [A, B] A.hash) (min A.hash B.hash))) := by
  have hfilter : [A, B].filter (fun r => r.selector = B.selector) = [A, B] := by
    simp [List.filter, hsel]
  have hauth : authoritativeKey c [A, B] B.selector =
      some (min (revKey (weightAfter c [A, B] A.hash) A.hash)
        (revKey (weightAfter c [A, B] B.hash) B.hash)) := by
    unfold authoritativeKey
    rw [hfilter, List.map_cons, List.map_cons, List.map_nil, minKey_pair]
  refine ⟨fun hgt => ?_, fun hgt => ?_, fun heq => ?_⟩
  · rw [hauth]
    congr 1
    exact min_eq_right (le_of_lt (revKey_lt_of_weight_gt hgt))
  · rw [hauth]
    congr 1
    exact min_eq_left (le_of_lt (revKey_lt_of_weight_gt hgt))
  · rw [hauth]
    congr 1
    rcases Nat.lt_or_ge A.hash B.hash with hAB | hBA
    · rw [Nat.min_eq_left (Nat.le_of_lt hAB)]
      exact min_eq_left (le_of_lt (revKey_lt_of_hash_lt heq hAB))
    · have hBA2 : B.hash < A.hash := by omega
      rw [Nat.min_eq_right (Nat.le_of_lt hBA2)]
      rw [heq]
      exact min_eq_right (le_of_lt (revKey_lt_of_hash_lt rfl hBA2))

/-- Witness for C3: the record with strictly greater weight wins. -/
theorem authoritative_tiebreak_witness :
    authoritativeKey (fun w => w) [⟨1, 0, [], 1⟩, ⟨2, 0, [], 5⟩] 0 =
      some (revKey (weightAfter (fun w => w) [⟨1, 0, [], 1⟩, ⟨2, 0, [], 5⟩] 2) 2) :=
  (authoritative_tiebreak (fun w => w) ⟨1, 0, [], 1⟩ ⟨2, 0, [], 5⟩ rfl
    (by decide)).1 (by decide)

lemma trigger_of_applied {fold : String → String → Bool} {init : Bool}
    {afields : List String} {k : String}
    (hc0 : ¬(init && !(afields.any (fun af => fold af k))) = true) :
    init = true → afields.any (fun af => fold af k) = true := by
  intro hinit
  subst hinit
  simp only [Bool.true_and, Bool.not_eq_true', Bool.not_eq_false] at hc0
  exact hc0

lemma fieldOfKey_spec (lower : String → String) (k : String) (f : GPField)
    (h : fieldOfKey lower k = some f) : lower k = fieldName f := by
  unfold fieldOfKey at h
  split_ifs at h with h1 h2 h3 h4 h5 h6 h7 h8 h9 h10 <;>
    (injection h with he; subst he; simp only [fieldName]; assumption)

lemma updateStep_Name {lower : String → String}
    {fold : String → String → Bool} {init : Bool} {afields : List String}
    {ngp gp : GenesisParameters} {k : String}
    (h : ¬(lower k = "name" ∧
      (init = true → afields.any (fun af => fold af k) = true))) :
    (updateStep lower fold init afields ngp gp k).Name = gp.Name := by
  unfold updateStep
  by_cases c0 : (init && !(afields.any (fun af => fold af k))) = true
  · rw [if_pos c0]
  · rw [if_neg c0]
    cases hf : fieldOfKey lower k with
    | none => rfl
    | some f =>
      cases f <;> try rfl
      exact absurd ⟨fieldOfKey_spec lower k GPField.name hf,
        trigger_of_applied c0⟩ h

lemma updateStep_Contact {lower : String → String}
    {fold : String → String → Bool} {init : Bool} {afields : List String}
    {ngp gp : GenesisParameters} {k : String}
    (h : ¬(lower k = "contact" ∧
      (init = true → afields.any (fun af => fold af k) = true))) :
    (updateStep lower fold init afields ngp gp k).Contact = gp.Contact := by
  unfold updateStep
  by_cases c0 : (init && !(afields.any (fun af => fold af k))) = true
  · rw [if_pos c0]
  · rw [if_neg c0]
    cases hf : fieldOfKey lower k with
    | none => rfl
    | some f =>
      cases f <;> try rfl
      exact absurd ⟨fieldOfKey_spec lower k GPField.contact hf,
        trigger_of_applied c0⟩ h

lemma updateStep_Comment {lower : String → String}
    {fold : String → String → Bool} {init : Bool} {afields : List String}
    {ngp gp : GenesisParameters} {k : String}
    (h : ¬(lower k = "comment" ∧
      (init = true → afields.any (fun af => fold af k) = true))) :
    (updateStep lower fold init afields ngp gp k).Comment = gp.Comment := by
  unfold updateStep
  by_cases c0 : (init && !(afields.any (fun af => fold af k))) = true
  · rw [if_pos c0]
  · rw [if_neg c0]
    cases hf : fieldOfKey lower k with
    | none => rfl
    | some f =>
      cases f <;> try rfl
      exact absurd ⟨fieldOfKey_spec lower k GPField.comment hf,
        trigger_of_applied c0⟩ h

lemma updateStep_AuthCertificates {lower : String → String}
    {fold : String → String → Bool} {init : Bool} {afields : List String}
    {ngp gp : GenesisParameters} {k : String}
    (h : ¬(lower k = "authcertificates" ∧
      (init = true → afields.any (fun af => fold af k) = true))) :
    (updateStep lower fold init afields ngp gp k).AuthCertificates = gp.AuthCertificates := by
  unfold updateStep
  by_cases c0 : (init && !(afields.any (fun af => fold af k))) = true
  · rw [if_pos c0]
  · rw [if_neg c0]
    cases hf : fieldOfKey lower k with
    | none => rfl
    | some f =>
      cases f <;> try rfl
      exact absurd ⟨fieldOfKey_spec lower k GPField.authcertificates hf,
        trigger_of_applied c0⟩ h

lemma updateStep_AuthRequired {lower : String → String}
    {fold : String → String → Bool} {init : Bool} {afields : List String}
    {ngp gp : GenesisParameters} {k : String}
    (h : ¬(lower k = "authrequired" ∧
      (init = true → afields.any (fun af => fold af k) = true))) :
    (updateStep lower fold init afields ngp gp k).AuthRequired = gp.AuthRequired := by
  unfold updateStep
  by_cases c0 : (init && !(afields.any (fun af => fold af k))) = true
  · rw [if_pos c0]
  · rw [if_neg c0]
    cases hf : fieldOfKey lower k with
    | none => rfl
    | some f =>
      cases f <;> try rfl
      exact absurd ⟨fieldOfKey_spec lower k GPField.authrequired hf,
        trigger_of_applied c0⟩ h

lemma updateStep_LinkKey {lower : String → String}
    {fold : String → String → Bool} {init : Bool} {afields : List String}
    {ngp gp : GenesisParameters} {k : String}
    (h : ¬(lower k = "linkkey" ∧
      (init = true → afields.any (fun af => fold af k) = true))) :
    (updateStep lower fold init afields ngp gp k).LinkKey = gp.LinkKey := by
  unfold updateStep
  by_cases c0 : (init && !(afields.any (fun af => fold af k))) = true
  · rw [if_pos c0]
  · rw [if_neg c0]
    cases hf : fieldOfKey lower k with
    | none => rfl
    | some f =>
      cases f <;> try rfl
      exact absurd ⟨fieldOfKey_spec lower k GPField.linkkey hf,
        trigger_of_applied c0⟩ h

lemma updateStep_RecordMinLinks {lower : String → String}
    {fold : String → String → Bool} {init : Bool} {afields : List String}
    {ngp gp : GenesisParameters} {k : String}
    (h : ¬(lower k = "recordminlinks" ∧
      (init = true → afields.any (fun af => fold af k) = true))) :
    (updateStep lower fold init afields ngp gp k).RecordMinLinks = gp.RecordMinLinks := by
  unfold updateStep
  by_cases c0 : (init && !(afields.any (fun af => fold af k))) = true
  · rw [if_pos c0]
  · rw [if_neg c0]
    cases hf : fieldOfKey lower k with
    | none => rfl
    | some f =>
      cases f <;> try rfl
      exact absurd ⟨fieldOfKey_spec lower k GPField.recordminlinks hf,
        trigger_of_applied c0⟩ h

lemma updateStep_RecordMaxValueSize {lower : String → String}
    {fold : String → String → Bool} {init : Bool} {afields : List String}
    {ngp gp : GenesisParameters} {k : String}
    (h : ¬(lower k = "recordmaxvaluesize" ∧
      (init = true → afields.any (fun af => fold af k) = true))) :
    (updateStep lower fold init afields ngp gp k).RecordMaxValueSize = gp.RecordMaxValueSize := by
  unfold updateStep
  by_cases c0 : (init && !(afields.any (fun af => fold af k))) = true
  · rw [if_pos c0]
  · rw [if_neg c0]
    cases hf : fieldOfKey lower k with
    | none => rfl
    | some f =>
      cases f <;> try rfl
      exact absurd ⟨fieldOfKey_spec lower k GPField.recordmaxvaluesize hf,
        trigger_of_applied c0⟩ h

lemma updateStep_RecordMaxForwardTimeDrift {lower : String → String}
    {fold : String → String → Bool} {init : Bool} {afields : List String}
    {ngp gp : GenesisParameters} {k : String}
    (h : ¬(lower k = "recordmaxforwardtimedrift" ∧
      (init = true → afields.any (fun af => fold af k) = true))) :
    (updateStep lower fold init afields ngp gp k).RecordMaxForwardTimeDrift = gp.RecordMaxForwardTimeDrift := by
  unfold updateStep
  by_cases c0 : (init && !(afields.any (fun af => fold af k))) = true
  · rw [if_pos c0]
  · rw [if_neg c0]
    cases hf : fieldOfKey lower k with
    | none => rfl
    | some f =>
      cases f <;> try rfl
      exact absurd ⟨fieldOfKey_spec lower k GPField.recordmaxforwardtimedrift hf,
        trigger_of_applied c0⟩ h

lemma updateStep_AmendableFields {lower : String → String}
    {fold : String → String → Bool} {init : Bool} {afields : List String}
    {ngp gp : GenesisParameters} {k : String}
    (h : ¬(lower k = "amendablefields" ∧
      (init = true → afields.any (fun af => fold af k) = true))) :
    (updateStep lower fold init afields ngp gp k).AmendableFields = gp.AmendableFields := by
  unfold updateStep
  by_cases c0 : (init && !(afields.any (fun af => fold af k))) = true
  · rw [if_pos c0]
  · rw [if_neg c0]
    cases hf : fieldOfKey lower k with
    | none => rfl
    | some f =>
      cases f <;> try rfl
      exact absurd ⟨fieldOfKey_spec lower k GPField.amendablefields hf,
        trigger_of_applied c0⟩ h

lemma foldl_update_frame {α : Type _} (lower : String → String)
    (fold : String → String → Bool) (f : GenesisParameters → α)
    (fname : String) (afields : List String) (ngp : GenesisParameters)
    (keys : List String)
    (hstep : ∀ (gp : GenesisParameters) (k : String),
      ¬(lower k = fname ∧
        (true = true → afields.any (fun af => fold af k) = true)) →
      f (updateStep lower fold true afields ngp gp k) = f gp)
    (H : ¬ keyTriggers lower fold afields keys fname) :
    ∀ gp : GenesisParameters,
      f (keys.foldl (updateStep lower fold true afields ngp) gp) = f gp := by
  induction keys with
  | nil => intro gp; rfl
  | cons k rest ih =>
    intro gp
    have Hrest : ¬ keyTriggers lower fold afields rest fname := by
      rintro ⟨k2, hk2, hcond⟩
      exact H ⟨k2, List.mem_cons.mpr (Or.inr hk2), hcond⟩
    rw [List.foldl_cons, ih Hrest]
    apply hstep
    rintro ⟨hmatch, hmem⟩
    exact H ⟨k, List.mem_cons.mpr (Or.inl rfl), hmatch, hmem rfl⟩

/-- C10: once initialized, a successful Update modifies only those
parameter fields whose names appear case insensitively in AmendableFields
and are present as keys of the incoming JSON object; all other fields are
left unchanged, and Update with empty input returns success and changes
nothing. The lowercasing of the switch (lower, strings.ToLower) and the
case insensitive comparison of the amendable check (fold,
strings.EqualFold) are arbitrary parameters, so the statement covers the
true Unicode functions; a field is addressed exactly when some key
satisfies the checks the code itself performs (keyTriggers). -/
theorem genesisParameters_update_frame (lower : String → String)
    (fold : String → String → Bool) (gp : GenesisParameters)
    (keys : List String) (ngp : GenesisParameters)
    (hinit : gp.initialized = true) :
    GenesisParameters.Update lower fold gp none = gp ∧
      (¬ keyTriggers lower fold gp.AmendableFields keys "name" →
        (GenesisParameters.Update lower fold gp (some (keys, ngp))).Name =
          gp.Name) ∧
      (¬ keyTriggers lower fold gp.AmendableFields keys "contact" →
        (GenesisParameters.Update lower fold gp (some (keys, ngp))).Contact =
          gp.Contact) ∧
      (¬ keyTriggers lower fold gp.AmendableFields keys "comment" →
        (GenesisParameters.Update lower fold gp (some (keys, ngp))).Comment =
          gp.Comment) ∧
      (¬ keyTriggers lower fold gp.AmendableFields keys "authcertificates" →
        (GenesisParameters.Update lower fold gp (some (keys, ngp))).AuthCertificates =
          gp.AuthCertificates) ∧
      (¬ keyTriggers lower fold gp.AmendableFields keys "authrequired" →
        (GenesisParameters.Update lower fold gp (some (keys, ngp))).AuthRequired =
          gp.AuthRequired) ∧
      (¬ keyTriggers lower fold gp.AmendableFields keys "linkkey" →
        (GenesisParameters.Update lower fold gp (some (keys, ngp))).LinkKey =
          gp.LinkKey) ∧
      (¬ keyTriggers lower fold gp.AmendableFields keys "recordminlinks" →
        (GenesisParameters.Update lower fold gp (some (keys, ngp))).RecordMinLinks =
          gp.RecordMinLinks) ∧
      (¬ keyTriggers lower fold gp.AmendableFields keys "recordmaxvaluesize" →
        (GenesisParameters.Update lower fold gp (some (keys, ngp))).RecordMaxValueSize =
          gp.RecordMaxValueSize) ∧
      (¬ keyTriggers lower fold gp.AmendableFields keys "recordmaxforwardtimedrift" →
        (GenesisParameters.Update lower fold gp (some (keys, ngp))).RecordMaxForwardTimeDrift =
          gp.RecordMaxForwardTimeDrift) ∧
      (¬ keyTriggers lower fold gp.AmendableFields keys "amendablefields" →
        (GenesisParameters.Update lower fold gp (some (keys, ngp))).AmendableFields =
          gp.AmendableFields) ∧
      (GenesisParameters.Update lower fold gp (some (keys, ngp))).initialized = true := by
  refine ⟨rfl, ?_, ?_, ?_, ?_, ?_, ?_, ?_, ?_, ?_, ?_, rfl⟩
  · intro H
    show (keys.foldl (updateStep lower fold gp.initialized gp.AmendableFields ngp)
        gp).Name = gp.Name
    rw [hinit]
    exact foldl_update_frame lower fold (fun g => g.Name) "name"
      gp.AmendableFields ngp keys (fun g k h => updateStep_Name h) H gp
  · intro H
    show (keys.foldl (updateStep lower fold gp.initialized gp.AmendableFields ngp)
        gp).Contact = gp.Contact
    rw [hinit]
    exact foldl_update_frame lower fold (fun g => g.Contact) "contact"
      gp.AmendableFields ngp keys (fun g k h => updateStep_Contact h) H gp
  · intro H
    show (keys.foldl (updateStep lower fold gp.initialized gp.AmendableFields ngp)
        gp).Comment = gp.Comment
    rw [hinit]
    exact foldl_update_frame lower fold (fun g => g.Comment) "comment"
      gp.AmendableFields ngp keys (fun g k h => updateStep_Comment h) H gp
  · intro H
    show (keys.foldl (updateStep lower fold gp.initialized gp.AmendableFields ngp)
        gp).AuthCertificates = gp.AuthCertificates
    rw [hinit]
    exact foldl_update_frame lower fold (fun g => g.AuthCertificates) "authcertificates"
      gp.AmendableFields ngp keys (fun g k h => updateStep_AuthCertificates h) H gp
  · intro H
    show (keys.foldl (updateStep lower fold gp.initialized gp.AmendableFields ngp)
        gp).AuthRequired = gp.AuthRequired
    rw [hinit]
    exact foldl_update_frame lower fold (fun g => g.AuthRequired) "authrequired"
      gp.AmendableFields ngp keys (fun g k h => updateStep_AuthRequired h) H gp
  · intro H
    show (keys.foldl (updateStep lower fold gp.initialized gp.AmendableFields ngp)
        gp).LinkKey = gp.LinkKey
    rw [hinit]
    exact foldl_update_frame lower fold (fun g => g.LinkKey) "linkkey"
      gp.AmendableFields ngp keys (fun g k h => updateStep_LinkKey h) H gp
  · intro H
    show (keys.foldl (updateStep lower fold gp.initialized gp.AmendableFields ngp)
        gp).RecordMinLinks = gp.RecordMinLinks
    rw [hinit]
    exact foldl_update_frame lower fold (fun g => g.RecordMinLinks) "recordminlinks"
      gp.AmendableFields ngp keys (fun g k h => updateStep_RecordMinLinks h) H gp
  · intro H
    show (keys.foldl (updateStep lower fold gp.initialized gp.AmendableFields ngp)
        gp).RecordMaxValueSize = gp.RecordMaxValueSize
    rw [hinit]
    exact foldl_update_frame lower fold (fun g => g.RecordMaxValueSize) "recordmaxvaluesize"
      gp.AmendableFields ngp keys (fun g k h => updateStep_RecordMaxValueSize h) H gp
  · intro H
    show (keys.foldl (updateStep lower fold gp.initialized gp.AmendableFields ngp)
        gp).RecordMaxForwardTimeDrift = gp.RecordMaxForwardTimeDrift
    rw [hinit]
    exact foldl_update_frame lower fold (fun g => g.RecordMaxForwardTimeDrift) "recordmaxforwardtimedrift"
      gp.AmendableFields ngp keys (fun g k h => updateStep_RecordMaxForwardTimeDrift h) H gp
  · intro H
    show (keys.foldl (updateStep lower fold gp.initialized gp.AmendableFields ngp)
        gp).AmendableFields = gp.AmendableFields
    rw [hinit]
    exact foldl_update_frame lower fold (fun g => g.AmendableFields) "amendablefields"
      gp.AmendableFields ngp keys (fun g k h => updateStep_AmendableFields h) H gp

/-- Witness for C10 at the ASCII instances of the lowercasing and folding
parameters: with only name amendable and only Contact present as a key,
Name is unchanged by an update after initialization. -/
theorem genesisParameters_update_frame_witness :
    (GenesisParameters.Update asciiLower asciiEqualFold
      ⟨"n", "c", "m", [], false, [], 1, 2, 3, ["name"], none, true⟩
      (some (["Contact"],
        ⟨"x", "y", "z", [], true, [], 9, 9, 9, [], none, false⟩))).Name = "n" :=
  ((genesisParameters_update_frame asciiLower asciiEqualFold
    ⟨"n", "c", "m", [], false, [], 1, 2, 3, ["name"], none, true⟩
    ["Contact"] ⟨"x", "y", "z", [], true, [], 9, 9, 9, [], none, false⟩ rfl).2.1)
    (by decide)

end LF
